import Mathlib

/-!
Verification of the HOI (human-object interaction) inference and loss layer
of `lib/modeling/fast_rcnn.py`.

Scores are modelled as rationals (exact arithmetic in place of IEEE floats)
and tensors as (nested) lists.  Torch operations that raise runtime errors
are modelled with `Option`/`Except`; the torch reduction `mean` over an
empty tensor yields NaN, modelled as `none`.  The external torch
primitives whose pointwise value is transcendental (`torch.sigmoid`,
`torch.log`, the pointwise cross-entropy terms) are taken as function
parameters: every statement below holds for an arbitrary instantiation of
them, so in particular for the real primitives.
-/

/-- Axis-aligned box (four coordinates), the payload carried through
`interaction_inference_single_image`; the code never inspects its
coordinates, it only selects boxes by index. -/
structure Box where
  x0 : ℚ
  y0 : ℚ
  x1 : ℚ
  y1 : ℚ
deriving DecidableEq, Repr

/-- Model of the `detectron2.structures.Instances` result populated by
`interaction_inference_single_image` (fields assigned at lines 69-74 of
`lib/modeling/fast_rcnn.py`). -/
structure Instances where
  image_shape : ℕ × ℕ
  person_boxes : List Box
  object_boxes : List Box
  object_classes : List ℤ
  action_classes : List ℕ
  scores : List ℚ
deriving DecidableEq, Repr

/-- Models `person_box_scores * object_box_scores` (line 47): torch elementwise
multiplication of two 1-D tensors, including singleton broadcasting; any
other shape mismatch raises (modelled by `none`). -/
def broadcastMul (p o : List ℚ) : Option (List ℚ) :=
  if p.length = o.length then some (List.zipWith (· * ·) p o)
  else if o.length = 1 then some (p.map (fun x => x * o.headI))
  else if p.length = 1 then some (o.map (fun x => p.headI * x))
  else none

/-- Models `hoi_scores * box_scores[:, None].repeat(1, hoi_scores.size(-1))`
(line 48) in the shape regime of the function's only caller,
`HoiOutputs.inference`: there `hoi_scores` is one image's `(R, K)` slice
of `predict_probs()` and `box_scores` has one entry per human-object
pair, so row `r` of `hoi_scores` is scaled by `box_scores[r]`. -/
def fusedScores (hoi : List (List ℚ)) (box_scores : List ℚ) : List (List ℚ) :=
  List.zipWith (fun row b => row.map (fun s => s * b)) hoi box_scores

/-- Lines 47-48 instantiated instead at the shapes advertised by the
docstring: `hoi_scores : (N, M, K)` with `box_scores` of length `M`
(the elementwise product at line 47 forces the two 1-D score vectors to
have matching length up to singleton broadcast).
`box_scores[:, None].repeat(1, K)` has shape `(M, K)` and broadcasts
against `(N, M, K)` along the leading axis, so entry `(i, j, k)` of the
product is `hoi_scores[i][j][k] * box_scores[j]`. -/
def fusedScores3d (hoi : List (List (List ℚ))) (box_scores : List ℚ) :
    List (List (List ℚ)) :=
  hoi.map (fun plane =>
    List.zipWith (fun row b => row.map (fun s => s * b)) plane box_scores)

/-- Lines 51-60: `filter_mask = scores > score_thresh`,
`filter_inds = filter_mask.nonzero()` (row-major order) together with the
corresponding values `scores[filter_mask]`: the surviving
`(pair index, action index, fused score)` triples. -/
def filterCandidates (scores : List (List ℚ)) (t : ℚ) : List (ℕ × ℕ × ℚ) :=
  (scores.enum.map (fun ri =>
    ri.2.enum.filterMap (fun ks =>
      if t < ks.2 then some (ri.1, ks.1, ks.2) else none))).flatten

/-- Tensor indexing `l[idx]` by an index tensor; indices out of range
raise (modelled by `none`). -/
def selectIdx {α : Type} (l : List α) (idx : List ℕ) : Option (List α) :=
  idx.mapM l.get?

/-- Comparison used to model `torch.argsort(scores, descending=True)`:
`(score, position)` pairs ordered by descending score. -/
def scoreGE (a b : ℚ × ℕ) : Prop := b.1 ≤ a.1

instance : DecidableRel scoreGE := fun a b => inferInstanceAs (Decidable (b.1 ≤ a.1))

instance : IsTotal (ℚ × ℕ) scoreGE := ⟨fun a b => le_total b.1 a.1⟩

instance : IsTrans (ℚ × ℕ) scoreGE := ⟨fun _ _ _ h1 h2 => le_trans h2 h1⟩

/-- The `(score, position)` pairs of a score vector. -/
def scorePairs (l : List ℚ) : List (ℚ × ℕ) := l.enum.map (fun p => (p.2, p.1))

/-- Models `torch.argsort(scores, descending=True)` (line 63): the positions of
the scores in descending score order (torch leaves the tie order
unspecified; here a stable insertion sort is used). -/
def argsortDesc (l : List ℚ) : List ℕ :=
  (List.insertionSort scoreGE (scorePairs l)).map (·.2)

/-- Embedding of `interaction_inference_single_image` (lines 15-75) in the shape regime
of its only caller `HoiOutputs.inference`: all box/score/class lists are
per human-object pair (one entry per pair) and `hoi_scores` is the
image's `(R, K)` probability slice. -/
def interaction_inference_single_image (image_shape : ℕ × ℕ)
    (person_boxes object_boxes : List Box)
    (person_box_scores object_box_scores : List ℚ)
    (object_box_classes : List ℤ) (hoi_scores : List (List ℚ))
    (score_thresh : ℚ) (topk_per_image : ℤ) : Option Instances := do
  let box_scores ← broadcastMul person_box_scores object_box_scores
  if hoi_scores.length = box_scores.length then
    let scores := fusedScores hoi_scores box_scores
    let cands := filterCandidates scores score_thresh
    let pb ← selectIdx person_boxes (cands.map (·.1))
    let ob ← selectIdx object_boxes (cands.map (·.1))
    let oc ← selectIdx object_box_classes (cands.map (·.1))
    let ac := cands.map (fun c => c.2.1)
    let sc := cands.map (fun c => c.2.2)
    if 0 < topk_per_image ∧ topk_per_image < (cands.length : ℤ) then
      let keep := (argsortDesc sc).take topk_per_image.toNat
      let pb2 ← selectIdx pb keep
      let ob2 ← selectIdx ob keep
      let oc2 ← selectIdx oc keep
      let ac2 ← selectIdx ac keep
      let sc2 ← selectIdx sc keep
      pure ⟨image_shape, pb2, ob2, oc2, ac2, sc2⟩
    else
      pure ⟨image_shape, pb, ob, oc, ac, sc⟩
  else none

/-- The surviving candidate triples of one image in the pair-shape
regime: fused pair scores thresholded at `t`. -/
def survivors (person_box_scores object_box_scores : List ℚ)
    (hoi_scores : List (List ℚ)) (t : ℚ) : List (ℕ × ℕ × ℚ) :=
  filterCandidates (fusedScores hoi_scores
    (List.zipWith (· * ·) person_box_scores object_box_scores)) t

/-- Per-image proposal-pair container (a `detectron2` `Instances` as
consumed by `HoiOutputs.__init__`): its length (`len(p)`, the number of
human-object pairs) and, when present (training mode), the multi-hot
`gt_actions` rows. -/
structure ImagePairs where
  image_size : ℕ × ℕ
  numPairs : ℕ
  gt_actions : Option (List (List ℚ))
deriving DecidableEq

/-- The state stored by `HoiOutputs.__init__` (lines 140-170). -/
structure HoiOutputsS where
  pred_class_logits : List (List ℚ)
  hopairs : List ImagePairs
  pos_weights : List ℚ
deriving DecidableEq

/-- Models `self.num_preds_per_image = [len(p) for p in hopairs]` (line 152). -/
def num_preds_per_image (o : HoiOutputsS) : List ℕ := o.hopairs.map (·.numPairs)

/-- Models `self._no_instances = len(hopairs) == 0` (line 170). -/
def no_instances (o : HoiOutputsS) : Bool := o.hopairs.isEmpty

/-- Models `self.gt_actions = cat([x.gt_actions for x in hopairs], dim=0)`
(line 160); in training mode every image carries the field. -/
def gt_actions_cat (o : HoiOutputsS) : List (List ℚ) :=
  (o.hopairs.map (fun p => p.gt_actions.getD [])).flatten

/-- Models `torch.mean` over the elements of a tensor: NaN (`none`) when the
tensor is empty. -/
def meanReduction (l : List ℚ) : Option ℚ :=
  if l.isEmpty then none else some (l.sum / (l.length : ℚ))

/-- The elementwise terms of `F.binary_cross_entropy_with_logits(logits,
targets, pos_weight=w)`: `term w t x` is the (external, transcendental)
pointwise loss at class weight `w`, target `t` and logit `x`;
`pos_weight` broadcasts along the class axis. -/
def bceElems (term : ℚ → ℚ → ℚ → ℚ) (posW : List ℚ)
    (logits targets : List (List ℚ)) : List ℚ :=
  (List.zipWith (fun lrow trow =>
    List.zipWith (fun wt x => term wt.1 wt.2 x) (posW.zip trow) lrow)
    logits targets).flatten

/-- Models `HoiOutputs._log_accuracy` (lines 172-194), as the list of
`put_scalar(name, value)` events it emits to the event storage;
`sig` models the external `torch.sigmoid`. -/
def logAccuracyEvents (sig : ℚ → ℚ) (logits gt : List (List ℚ)) :
    List (String × ℚ) :=
  let g := gt.flatten
  let n := g.length
  let preds := (logits.map (List.map sig)).flatten
  let pg := preds.zip g
  let fgPreds := (pg.filter (fun x => 0 < x.2)).map (·.1)
  let numFg := fgPreds.length
  let numFalseNeg := (fgPreds.filter (fun p => p ≤ 1/2)).length
  let numAccurate :=
    (pg.filter (fun x => (if 1/2 < x.1 then (1 : ℚ) else 0) = x.2)).length
  let fgNumAccurate := (fgPreds.filter (fun p => 1/2 < p)).length
  if 0 < n then
    ("action/cls_accuracy", (numAccurate : ℚ) / (n : ℚ)) ::
      (if 0 < numFg then
        [("action/fg_cls_accuracy", (fgNumAccurate : ℚ) / (numFg : ℚ)),
         ("action/false_negative", (numFalseNeg : ℚ) / (numFg : ℚ))]
       else [])
  else []

/-- Embedding of `HoiOutputs.binary_cross_entropy_with_logits` (lines 196-216).
`term` and `sig` are the external torch pointwise primitives.
`storagePresent` records whether a `detectron2` `EventStorage` context is
open: in the populated branch `_log_accuracy` calls
`get_event_storage()`, which asserts that one exists.  The result is the
loss value (`none` models NaN) together with the diagnostic events
emitted on the way. -/
def binary_cross_entropy_with_logits (term : ℚ → ℚ → ℚ → ℚ) (sig : ℚ → ℚ)
    (storagePresent : Bool) (o : HoiOutputsS) :
    Except String (Option ℚ × List (String × ℚ)) :=
  if no_instances o then
    .ok (some (0 * (o.pred_class_logits.map
      (fun row => (row.map (fun x => term 1 0 x)).sum)).sum), [])
  else if storagePresent then
    .ok (meanReduction
          (bceElems term o.pos_weights o.pred_class_logits (gt_actions_cat o)),
         logAccuracyEvents sig o.pred_class_logits (gt_actions_cat o))
  else .error "get_event_storage: no EventStorage context"

/-- Models `torch.split(rows, counts, dim=0)` (as used at line 237): the sizes
must tile the rows exactly, otherwise torch raises (`none`). -/
def splitByCounts {α : Type} (counts : List ℕ) (rows : List α) :
    Option (List (List α)) :=
  match counts with
  | [] => if rows.isEmpty then some [] else none
  | c :: cs =>
    if c ≤ rows.length then
      (splitByCounts cs (rows.drop c)).map (fun rest => rows.take c :: rest)
    else none

/-- Embedding of `HoiOutputs.predict_probs` (lines 229-237): elementwise sigmoid (the
external primitive `sig`) followed by the split into per-image slices. -/
def predict_probs (sig : ℚ → ℚ) (o : HoiOutputsS) :
    Option (List (List (List ℚ))) :=
  splitByCounts (num_preds_per_image o) (o.pred_class_logits.map (List.map sig))

/-- The state of `BoxOutputs` relevant to `softmax_cross_entropy_loss`:
classification scores (already softmaxed upstream), ground-truth classes,
and the parent class's `_no_instances` flag. -/
structure BoxOutputsS where
  pred_class_logits : List (List ℚ)
  gt_classes : List ℕ
  noInstances : Bool
deriving DecidableEq

/-- Models `F.cross_entropy(logits, targets, reduction="sum")`: `ce` is the
external per-row pointwise loss; torch requires one target per row. -/
def crossEntropySum (ce : List ℚ → ℕ → ℚ) (logits : List (List ℚ))
    (targets : List ℕ) : Option ℚ :=
  if logits.length = targets.length then
    some (((logits.zip targets).map (fun rt => ce rt.1 rt.2)).sum)
  else none

/-- Embedding of `BoxOutputs.softmax_cross_entropy_loss` (lines 102-120): with no
instances, `0.0 * F.cross_entropy(logits, zeros(0), reduction="sum")`;
otherwise `_log_accuracy()` (which needs an open event storage) followed
by `F.nll_loss(torch.log(logits), gt_classes, reduction="mean")`.
`logQ` models the external `torch.log`; a loss of `none` models NaN. -/
def softmax_cross_entropy_loss (ce : List ℚ → ℕ → ℚ) (logQ : ℚ → ℚ)
    (storagePresent : Bool) (o : BoxOutputsS) : Except String (Option ℚ) :=
  if o.noInstances then
    match crossEntropySum ce o.pred_class_logits [] with
    | some v => .ok (some (0 * v))
    | none => .error "cross_entropy: batch size mismatch"
  else if storagePresent then
    if o.pred_class_logits.length = o.gt_classes.length then
      .ok (meanReduction ((o.pred_class_logits.zip o.gt_classes).map
        (fun rt => -((rt.1.map logQ).getD rt.2 0))))
    else .error "nll_loss: batch size mismatch"
  else .error "get_event_storage: no EventStorage context"

/-- Models `torch.clamp(x, min=lo, max=hi)`. -/
def clampQ (x lo hi : ℚ) : ℚ := min (max x lo) hi

/-- One dataset's contribution to the positive-weight accumulation in
`HoiOutputLayers.from_config` (lines 349-361): with (Python-truthy)
recorded priors, `clamp(1/(prior*scale), min=lo, max=hi)` elementwise;
with `None` or an empty priors list (both falsy in `if priors:`),
`torch.full((num_classes,), 1.)`. -/
def datasetContribution (num_classes : ℕ) (bounds : ℚ × ℚ) (scale : ℚ)
    (priors : Option (List ℚ)) : List ℚ :=
  match priors with
  | some ps =>
    if ps.isEmpty then List.replicate num_classes 1
    else ps.map (fun p => clampQ (1 / (p * scale)) bounds.1 bounds.2)
  | none => List.replicate num_classes 1

/-- The `pos_weights` computation of `HoiOutputLayers.from_config`
(lines 346-364): start from zeros, add each training dataset's
contribution in turn, and divide by the dataset count when it is
nonzero.  A dataset is given by its recorded `action_priors` metadata
(`none` when absent). -/
def from_config_pos_weights (num_classes : ℕ) (bounds : ℚ × ℚ)
    (batch_size_per_image ims_per_batch : ℕ)
    (datasets : List (Option (List ℚ))) : List ℚ :=
  let scale : ℚ := (ims_per_batch : ℚ) * (batch_size_per_image : ℚ)
  let total := datasets.foldl
    (fun acc d =>
      List.zipWith (· + ·) acc (datasetContribution num_classes bounds scale d))
    (List.replicate num_classes 0)
  if datasets.length ≠ 0 then total.map (fun w => w / (datasets.length : ℚ))
  else total

/-! ## Helper lemmas -/

theorem getD_zipWith_of_lt {α β γ : Type} (f : α → β → γ) :
    ∀ (l1 : List α) (l2 : List β) (k : ℕ) (a : α) (b : β) (c : γ),
      k < l1.length → k < l2.length →
      (List.zipWith f l1 l2).getD k c = f (l1.getD k a) (l2.getD k b) := by
  intro l1
  induction l1 with
  | nil => intro l2 k a b c h1 h2; simp at h1
  | cons x xs ih =>
    intro l2 k a b c h1 h2
    cases l2 with
    | nil => simp at h2
    | cons y ys =>
      cases k with
      | zero => rfl
      | succ n =>
        simp only [List.zipWith_cons_cons, List.getD_cons_succ]
        exact ih ys n a b c (by simpa using h1) (by simpa using h2)

theorem getD_map_of_lt {α β : Type} (f : α → β) :
    ∀ (l : List α) (k : ℕ) (a : α) (c : β), k < l.length →
      (l.map f).getD k c = f (l.getD k a) := by
  intro l
  induction l with
  | nil => intro k a c h; simp at h
  | cons x xs ih =>
    intro k a c h
    cases k with
    | zero => rfl
    | succ n =>
      simp only [List.map_cons, List.getD_cons_succ]
      exact ih n a c (by simpa using h)

theorem getD_replicate_of_lt {α : Type} (x d : α) :
    ∀ (n k : ℕ), k < n → (List.replicate n x).getD k d = x := by
  intro n
  induction n with
  | zero => intro k h; simp at h
  | succ m ih =>
    intro k h
    cases k with
    | zero => rfl
    | succ j => simpa [List.replicate_succ] using ih j (by omega)

theorem splitByCounts_eq_some {α : Type} :
    ∀ (counts : List ℕ) (rows : List α), counts.sum = rows.length →
      ∃ parts, splitByCounts counts rows = some parts ∧ parts.flatten = rows := by
  intro counts
  induction counts with
  | nil =>
    intro rows h
    have : rows = [] := List.eq_nil_of_length_eq_zero (by simpa using h.symm)
    subst this
    exact ⟨[], rfl, rfl⟩
  | cons c cs ih =>
    intro rows h
    simp only [List.sum_cons] at h
    have hc : c ≤ rows.length := by omega
    obtain ⟨rest, hr, hf⟩ := ih (rows.drop c) (by simp only [List.length_drop]; omega)
    refine ⟨rows.take c :: rest, ?_, ?_⟩
    · simp only [splitByCounts, if_pos hc, hr, Option.map_some']
    · simp only [List.flatten_cons, hf, List.take_append_drop]

theorem splitByCounts_eq_none {α : Type} :
    ∀ (counts : List ℕ) (rows : List α), counts.sum ≠ rows.length →
      splitByCounts counts rows = none := by
  intro counts
  induction counts with
  | nil =>
    intro rows h
    simp only [splitByCounts, ite_eq_right_iff]
    intro he
    exact absurd (by simp [List.isEmpty_iff.1 he]) h
  | cons c cs ih =>
    intro rows h
    simp only [List.sum_cons] at h
    simp only [splitByCounts]
    by_cases hc : c ≤ rows.length
    · rw [if_pos hc, ih _ (by simp only [List.length_drop]; omega)]
      rfl
    · rw [if_neg hc]

theorem length_datasetContribution (K : ℕ) (bounds : ℚ × ℚ) (scale : ℚ)
    (d : Option (List ℚ)) (h : ∀ ps, d = some ps → ps.length = K) :
    (datasetContribution K bounds scale d).length = K := by
  cases d with
  | none => simp [datasetContribution]
  | some ps =>
    by_cases hps : ps.isEmpty
    · simp [datasetContribution, hps]
    · simp [datasetContribution, hps, h ps rfl]

theorem foldl_contrib_length (K : ℕ) (bounds : ℚ × ℚ) (scale : ℚ) :
    ∀ (ds : List (Option (List ℚ))) (init : List ℚ), init.length = K →
      (∀ d ∈ ds, ∀ ps, d = some ps → ps.length = K) →
      (ds.foldl (fun acc d =>
        List.zipWith (· + ·) acc (datasetContribution K bounds scale d)) init).length = K := by
  intro ds
  induction ds with
  | nil => intro init h _; simpa using h
  | cons d ds ih =>
    intro init h hwf
    simp only [List.foldl_cons]
    apply ih
    · rw [List.length_zipWith, h,
        length_datasetContribution K bounds scale d (hwf d (by simp))]
      simp
    · intro d' hd'; exact hwf d' (by simp [hd'])

theorem foldl_contrib_getD (K : ℕ) (bounds : ℚ × ℚ) (scale : ℚ) :
    ∀ (ds : List (Option (List ℚ))) (init : List ℚ) (k : ℕ), init.length = K →
      (∀ d ∈ ds, ∀ ps, d = some ps → ps.length = K) → k < K →
      (ds.foldl (fun acc d =>
        List.zipWith (· + ·) acc (datasetContribution K bounds scale d)) init).getD k 0 =
      init.getD k 0 +
        (ds.map (fun d => (datasetContribution K bounds scale d).getD k 0)).sum := by
  intro ds
  induction ds with
  | nil => intro init k h hwf hk; simp
  | cons d ds ih =>
    intro init k h hwf hk
    simp only [List.foldl_cons, List.map_cons, List.sum_cons]
    rw [ih _ k
        (by rw [List.length_zipWith, h,
              length_datasetContribution K bounds scale d (hwf d (by simp))]; simp)
        (fun d' hd' => hwf d' (by simp [hd'])) hk]
    rw [getD_zipWith_of_lt (· + ·) init _ k 0 0 0 (by omega)
        (by rw [length_datasetContribution K bounds scale d (hwf d (by simp))]; omega)]
    ring

theorem clampQ_mem (x lo hi : ℚ) (h : lo ≤ hi) : lo ≤ clampQ x lo hi ∧ clampQ x lo hi ≤ hi := by
  unfold clampQ
  constructor
  · exact le_min (le_max_right x lo) h
  · exact min_le_right _ _

/-! ## Claim theorems: positive weights and probability splitting -/

/-- C7: `HoiOutputLayers.from_config` builds the positive-weight vector
as follows: a dataset with (truthy) recorded priors contributes
`clamp(1/(prior * ims_per_batch * batch_size_per_image), lo, hi)`
elementwise, so each such contribution lies within `[lo, hi]`; a dataset
without priors (or with an empty priors list) contributes uniformly `1`
for all classes regardless of the bounds; and the final vector is the
elementwise average of the contributions over the `G` training
datasets. -/
theorem C7_pos_weights (K : ℕ) (bounds : ℚ × ℚ) (bsize ims : ℕ)
    (datasets : List (Option (List ℚ)))
    (hb : bounds.1 ≤ bounds.2)
    (hwf : ∀ d ∈ datasets, ∀ ps, d = some ps → ps.length = K)
    (hne : datasets ≠ []) :
    (∀ ps : List ℚ, ps ≠ [] →
      ∀ w ∈ datasetContribution K bounds ((ims : ℚ) * (bsize : ℚ)) (some ps),
        bounds.1 ≤ w ∧ w ≤ bounds.2) ∧
    (datasetContribution K bounds ((ims : ℚ) * (bsize : ℚ)) none =
        List.replicate K 1 ∧
     datasetContribution K bounds ((ims : ℚ) * (bsize : ℚ)) (some []) =
        List.replicate K 1) ∧
    (∀ k, k < K →
      (from_config_pos_weights K bounds bsize ims datasets).getD k 0 =
        (datasets.map (fun d =>
          (datasetContribution K bounds ((ims : ℚ) * (bsize : ℚ)) d).getD k 0)).sum /
          (datasets.length : ℚ)) := by
  refine ⟨?_, ⟨rfl, rfl⟩, ?_⟩
  · intro ps hps w hw
    simp only [datasetContribution, List.isEmpty_iff, if_neg hps, List.mem_map] at hw
    obtain ⟨p, _, rfl⟩ := hw
    exact clampQ_mem _ _ _ hb
  · intro k hk
    unfold from_config_pos_weights
    rw [if_pos (by simpa using fun h => hne (List.eq_nil_of_length_eq_zero h))]
    rw [getD_map_of_lt _ _ k 0 0
        (by rw [foldl_contrib_length K bounds _ datasets _ (by simp) hwf]; exact hk)]
    rw [foldl_contrib_getD K bounds _ datasets _ k (by simp) hwf hk]
    rw [getD_replicate_of_lt _ _ _ _ hk, zero_add]

/-- Witness for C7 at a concrete configuration: two training datasets,
one with priors `[1/10, 1/2]` and one without. -/
theorem C7_witness :
    ((1 : ℚ)/2, (10 : ℚ)).1 ≤ ((1 : ℚ)/2, (10 : ℚ)).2 ∧
    (∀ d ∈ [some [(1 : ℚ)/10, 1/2], none], ∀ ps, d = some ps → ps.length = 2) ∧
    ([some [(1 : ℚ)/10, 1/2], none] ≠ []) ∧
    ((∀ ps : List ℚ, ps ≠ [] →
      ∀ w ∈ datasetContribution 2 ((1 : ℚ)/2, (10 : ℚ)) (((3 : ℕ) : ℚ) * ((2 : ℕ) : ℚ)) (some ps),
        ((1 : ℚ)/2, (10 : ℚ)).1 ≤ w ∧ w ≤ ((1 : ℚ)/2, (10 : ℚ)).2) ∧
    (datasetContribution 2 ((1 : ℚ)/2, (10 : ℚ)) (((3 : ℕ) : ℚ) * ((2 : ℕ) : ℚ)) none =
        List.replicate 2 1 ∧
     datasetContribution 2 ((1 : ℚ)/2, (10 : ℚ)) (((3 : ℕ) : ℚ) * ((2 : ℕ) : ℚ)) (some []) =
        List.replicate 2 1) ∧
    (∀ k, k < 2 →
      (from_config_pos_weights 2 ((1 : ℚ)/2, (10 : ℚ)) 2 3
          [some [(1 : ℚ)/10, 1/2], none]).getD k 0 =
        ([some [(1 : ℚ)/10, 1/2], none].map (fun d =>
          (datasetContribution 2 ((1 : ℚ)/2, (10 : ℚ))
            (((3 : ℕ) : ℚ) * ((2 : ℕ) : ℚ)) d).getD k 0)).sum /
          (([some [(1 : ℚ)/10, 1/2], none] : List (Option (List ℚ))).length : ℚ))) :=
  ⟨by norm_num, by decide, by decide,
   C7_pos_weights 2 ((1 : ℚ)/2, (10 : ℚ)) 2 3 [some [(1 : ℚ)/10, 1/2], none]
     (by norm_num) (by decide) (by decide)⟩

/-- C10: with an empty list of training datasets,
`HoiOutputLayers.from_config` returns the all-zero accumulator of length
`num_classes` (the division by the dataset count is skipped), not the
uniform-1 fallback. -/
theorem C10_empty_datasets (K : ℕ) (bounds : ℚ × ℚ) (bsize ims : ℕ) :
    from_config_pos_weights K bounds bsize ims [] = List.replicate K 0 := by
  simp [from_config_pos_weights]

/-- C8: `predict_probs` applies the elementwise sigmoid and splits the
rows by the stored per-image pair counts; when the counts sum to the row
count the per-image slices concatenate back to the flat sigmoid array
exactly, in order. -/
theorem C8_split_roundtrip (sig : ℚ → ℚ) (o : HoiOutputsS)
    (h : (num_preds_per_image o).sum = o.pred_class_logits.length) :
    ∃ parts, predict_probs sig o = some parts ∧
      parts.flatten = o.pred_class_logits.map (List.map sig) := by
  unfold predict_probs
  exact splitByCounts_eq_some _ _ (by simpa using h)

/-- Witness for C8: two images with 2 and 1 pairs over 3 logit rows. -/
theorem C8_witness :
    (num_preds_per_image ⟨[[1], [2], [3]], [⟨(1, 1), 2, none⟩, ⟨(1, 1), 1, none⟩], []⟩).sum =
      ([[1], [2], [3]] : List (List ℚ)).length ∧
    ∃ parts, predict_probs (fun x => x / 2)
        ⟨[[1], [2], [3]], [⟨(1, 1), 2, none⟩, ⟨(1, 1), 1, none⟩], []⟩ = some parts ∧
      parts.flatten = ([[1], [2], [3]] : List (List ℚ)).map (List.map (fun x => x / 2)) :=
  ⟨by decide,
   C8_split_roundtrip (fun x => x / 2)
     ⟨[[1], [2], [3]], [⟨(1, 1), 2, none⟩, ⟨(1, 1), 1, none⟩], []⟩ (by decide)⟩

/-- C9: when the per-image pair counts do not sum to the number of logit
rows, the split inside `predict_probs` raises (`none`) instead of
returning a wrong result. -/
theorem C9_split_mismatch (sig : ℚ → ℚ) (o : HoiOutputsS)
    (h : (num_preds_per_image o).sum ≠ o.pred_class_logits.length) :
    predict_probs sig o = none := by
  unfold predict_probs
  exact splitByCounts_eq_none _ _ (by simpa using h)

/-- Witness for C9: one image claiming 2 pairs over a single logit row. -/
theorem C9_witness :
    (num_preds_per_image ⟨[[1]], [⟨(1, 1), 2, none⟩], []⟩).sum ≠
      ([[1]] : List (List ℚ)).length ∧
    predict_probs (fun x => x / 2) ⟨[[1]], [⟨(1, 1), 2, none⟩], []⟩ = none :=
  ⟨by decide, C9_split_mismatch (fun x => x / 2) ⟨[[1]], [⟨(1, 1), 2, none⟩], []⟩ (by decide)⟩

/-! ## Claim theorems: loss degeneracy and diagnostics -/

/-- C4 (amended): when the `_no_instances` flag is set — for
`BoxOutputs` together with empty logits, and for `HoiOutputs` when the
`hopairs` list itself is empty — both the box classification loss and
the action loss evaluate to exactly `0` (an actual value: neither NaN
nor an error), via the `0 * zero-target-loss` pattern, for every
instantiation of the external pointwise primitives and whether or not an
event storage is open. -/
theorem C4_amended (ce : List ℚ → ℕ → ℚ) (logQ : ℚ → ℚ)
    (term : ℚ → ℚ → ℚ → ℚ) (sig : ℚ → ℚ) (storagePresent : Bool)
    (ob : BoxOutputsS) (oh : HoiOutputsS)
    (hb : ob.noInstances = true) (hbl : ob.pred_class_logits = [])
    (hh : no_instances oh = true) :
    softmax_cross_entropy_loss ce logQ storagePresent ob = .ok (some 0) ∧
    binary_cross_entropy_with_logits term sig storagePresent oh = .ok (some 0, []) := by
  constructor
  · simp [softmax_cross_entropy_loss, hb, hbl, crossEntropySum]
  · simp [binary_cross_entropy_with_logits, hh]

/-- Witness for C4: an empty box batch and an empty `hopairs` list (with
a stray logit row, annihilated by the `0 *` factor); the storage flag is
off, showing the degenerate branch needs no event storage. -/
theorem C4_witness :
    (⟨[], [], true⟩ : BoxOutputsS).noInstances = true ∧
    (⟨[], [], true⟩ : BoxOutputsS).pred_class_logits = [] ∧
    no_instances ⟨[[5]], [], [2]⟩ = true ∧
    (softmax_cross_entropy_loss (fun row c => row.getD c 0) (fun x => x - 1) false
        ⟨[], [], true⟩ = .ok (some 0) ∧
     binary_cross_entropy_with_logits (fun w t x => w * (t - x)) (fun x => x) false
        ⟨[[5]], [], [2]⟩ = .ok (some 0, [])) :=
  ⟨rfl, rfl, rfl,
   C4_amended (fun row c => row.getD c 0) (fun x => x - 1) (fun w t x => w * (t - x))
     (fun x => x) false ⟨[], [], true⟩ ⟨[[5]], [], [2]⟩ rfl rfl rfl⟩

/-- C4 counterexample: a non-empty batch of one image contributing zero
pairs does NOT take the zero-instance branch (`_no_instances` is
`len(hopairs) == 0`); the populated branch's `mean` reduction then runs
over zero elements and yields NaN (`none`), not `0`. -/
theorem C4_counterexample :
    binary_cross_entropy_with_logits (fun w t x => w * (t - x)) (fun x => x) true
        ⟨[], [⟨(4, 4), 0, some []⟩], []⟩ = .ok (none, []) ∧
    (Except.ok (some 0, []) : Except String (Option ℚ × List (String × ℚ))) ≠
      .ok (none, []) :=
  ⟨by with_unfolding_all rfl, by simp⟩

/-- C6 (amended): the diagnostics emitted by `_log_accuracy` never
affect the returned action-loss value — two runs with an open event
storage and arbitrary (different) sigmoid primitives return the same
value; however the code does not suppress a missing metrics sink: on a
populated input with no open `EventStorage` context, the unguarded
`get_event_storage()` call raises and aborts the loss computation. -/
theorem C6_amended (term : ℚ → ℚ → ℚ → ℚ) (sig sig' : ℚ → ℚ) (o : HoiOutputsS)
    (v v' : Option ℚ) (ev ev' : List (String × ℚ))
    (h1 : binary_cross_entropy_with_logits term sig true o = .ok (v, ev))
    (h2 : binary_cross_entropy_with_logits term sig' true o = .ok (v', ev')) :
    v = v' ∧
    (no_instances o = false →
      binary_cross_entropy_with_logits term sig false o =
        .error "get_event_storage: no EventStorage context") := by
  constructor
  · unfold binary_cross_entropy_with_logits at h1 h2
    by_cases hno : no_instances o = true
    · rw [if_pos hno] at h1 h2
      simp only [Except.ok.injEq, Prod.mk.injEq] at h1 h2
      rw [← h1.1, ← h2.1]
    · rw [if_neg hno, if_pos rfl] at h1 h2
      simp only [Except.ok.injEq, Prod.mk.injEq] at h1 h2
      rw [← h1.1, ← h2.1]
  · intro hno
    simp [binary_cross_entropy_with_logits, hno]

/-- Witness for C6: a populated one-pair input evaluated with two
different sigmoid primitives; the diagnostic events differ but the loss
value (`some 0`) is the same. -/
theorem C6_witness :
    binary_cross_entropy_with_logits (fun w t x => w * t * x) (fun x => x) true
        ⟨[[0]], [⟨(1, 1), 1, some [[1]]⟩], [1]⟩ =
      .ok (some 0, [("action/cls_accuracy", 0), ("action/fg_cls_accuracy", 0),
        ("action/false_negative", 1)]) ∧
    binary_cross_entropy_with_logits (fun w t x => w * t * x) (fun x => 1 - x) true
        ⟨[[0]], [⟨(1, 1), 1, some [[1]]⟩], [1]⟩ =
      .ok (some 0, [("action/cls_accuracy", 1), ("action/fg_cls_accuracy", 1),
        ("action/false_negative", 0)]) ∧
    ((some (0 : ℚ) = some (0 : ℚ)) ∧
     (no_instances ⟨[[0]], [⟨(1, 1), 1, some [[1]]⟩], [1]⟩ = false →
      binary_cross_entropy_with_logits (fun w t x => w * t * x) (fun x => x) false
          ⟨[[0]], [⟨(1, 1), 1, some [[1]]⟩], [1]⟩ =
        .error "get_event_storage: no EventStorage context")) :=
  ⟨by with_unfolding_all rfl, by with_unfolding_all rfl,
   C6_amended (fun w t x => w * t * x) (fun x => x) (fun x => 1 - x)
     ⟨[[0]], [⟨(1, 1), 1, some [[1]]⟩], [1]⟩ (some 0) (some 0) _ _
     (by with_unfolding_all rfl) (by with_unfolding_all rfl)⟩

/-- C6 counterexample: with no open event storage, the populated-branch
loss computation errors out instead of suppressing the missing metrics
sink — refuting "absence of the metrics sink never raises and never
aborts the loss computation". -/
theorem C6_counterexample :
    binary_cross_entropy_with_logits (fun w t x => w * t * x) (fun x => x) false
        ⟨[[0]], [⟨(1, 1), 1, some [[1]]⟩], [1]⟩ =
      .error "get_event_storage: no EventStorage context" := rfl

/-! ## Helper lemmas: candidate filtering and index selection -/

theorem lt_of_mem_filterCandidates {scores : List (List ℚ)} {t : ℚ}
    {c : ℕ × ℕ × ℚ} (h : c ∈ filterCandidates scores t) : t < c.2.2 := by
  simp only [filterCandidates, List.mem_flatten, List.mem_map] at h
  obtain ⟨inner, ⟨ri, hri, rfl⟩, hc⟩ := h
  simp only [List.mem_filterMap] at hc
  obtain ⟨ks, hks, hcc⟩ := hc
  by_cases hlt : t < ks.2
  · rw [if_pos hlt] at hcc
    injection hcc with h2
    subst h2
    exact hlt
  · rw [if_neg hlt] at hcc
    exact absurd hcc (by simp)

theorem filterCandidates_eq_nil {scores : List (List ℚ)} {t : ℚ}
    (h : ∀ s ∈ scores.flatten, s ≤ t) : filterCandidates scores t = [] := by
  unfold filterCandidates
  rw [List.flatten_eq_nil_iff]
  intro inner hinner
  simp only [List.mem_map] at hinner
  obtain ⟨ri, hri, rfl⟩ := hinner
  rw [List.filterMap_eq_nil_iff]
  intro ks hks
  rw [if_neg]
  intro hlt
  have hrow : ri.2 ∈ scores := List.snd_mem_of_mem_enum hri
  have hs : ks.2 ∈ ri.2 := List.snd_mem_of_mem_enum hks
  exact absurd (h ks.2 (List.mem_flatten.2 ⟨ri.2, hrow, hs⟩)) (by simpa using hlt)

theorem mem_of_selectIdx {α : Type} :
    ∀ {idx : List ℕ} {l r : List α}, selectIdx l idx = some r → ∀ x ∈ r, x ∈ l := by
  intro idx
  induction idx with
  | nil =>
    intro l r h x hx
    simp only [selectIdx, List.mapM_nil] at h
    injection h with h
    subst h
    simp at hx
  | cons i is ih =>
    intro l r h x hx
    simp only [selectIdx, List.mapM_cons, Option.pure_def, Option.bind_eq_bind,
      Option.bind_eq_some] at h
    obtain ⟨a, ha, as, has, hr⟩ := h
    injection hr with hr
    subst hr
    rcases List.mem_cons.1 hx with hxa | hxas
    · subst hxa
      exact List.get?_mem ha
    · exact ih has x hxas

theorem selectIdx_length {α : Type} :
    ∀ {idx : List ℕ} {l r : List α}, selectIdx l idx = some r → r.length = idx.length := by
  intro idx
  induction idx with
  | nil =>
    intro l r h
    simp only [selectIdx, List.mapM_nil] at h
    injection h with h
    subst h
    rfl
  | cons i is ih =>
    intro l r h
    simp only [selectIdx, List.mapM_cons, Option.pure_def, Option.bind_eq_bind,
      Option.bind_eq_some] at h
    obtain ⟨a, _, as, has, hr⟩ := h
    injection hr with hr
    subst hr
    simp [ih has]

theorem selectIdx_of_pairs {α : Type} :
    ∀ (ps : List (α × ℕ)) (l : List α),
      (∀ p ∈ ps, l.get? p.2 = some p.1) →
      selectIdx l (ps.map (·.2)) = some (ps.map (·.1)) := by
  intro ps
  induction ps with
  | nil => intro l _; rfl
  | cons p ps ih =>
    intro l h
    simp only [List.map_cons, selectIdx, List.mapM_cons, Option.pure_def,
      Option.bind_eq_bind]
    rw [h p (by simp)]
    rw [show (ps.map (·.2)).mapM l.get? = selectIdx l (ps.map (·.2)) from rfl,
      ih l (fun q hq => h q (by simp [hq]))]
    rfl

theorem get?_of_mem_scorePairs {l : List ℚ} {p : ℚ × ℕ}
    (h : p ∈ scorePairs l) : l.get? p.2 = some p.1 := by
  simp only [scorePairs, List.mem_map] at h
  obtain ⟨q, hq, rfl⟩ := h
  rw [List.get?_eq_getElem?]
  exact List.mem_enum_iff_getElem?.1 hq

theorem scorePairs_map_fst (l : List ℚ) : (scorePairs l).map (·.1) = l := by
  simp only [scorePairs, List.map_map]
  exact List.enum_map_snd l

theorem sorted_map_fst_insertionSort (ps : List (ℚ × ℕ)) :
    List.Sorted (fun a b : ℚ => b ≤ a)
      ((List.insertionSort scoreGE ps).map (·.1)) := by
  have h := List.sorted_insertionSort scoreGE ps
  exact List.Pairwise.map (fun p : ℚ × ℕ => p.1) (fun _ _ hab => hab) h

theorem perm_map_fst_insertionSort (l : List ℚ) :
    ((List.insertionSort scoreGE (scorePairs l)).map (·.1)).Perm l := by
  have h := (List.perm_insertionSort scoreGE (scorePairs l)).map (·.1)
  rwa [scorePairs_map_fst] at h

theorem selectIdx_argsort_take (l : List ℚ) (m : ℕ) :
    selectIdx l ((argsortDesc l).take m) =
      some (((List.insertionSort scoreGE (scorePairs l)).map (·.1)).take m) := by
  unfold argsortDesc
  rw [← List.map_take, ← List.map_take]
  apply selectIdx_of_pairs
  intro p hp
  exact get?_of_mem_scorePairs
    ((List.mem_insertionSort scoreGE).1 (List.mem_of_mem_take hp))

theorem length_map_fst_insertionSort (l : List ℚ) :
    ((List.insertionSort scoreGE (scorePairs l)).map (·.1)).length = l.length := by
  rw [List.length_map, List.length_insertionSort]
  simp [scorePairs]

/-- Inversion of a successful run of `interaction_inference_single_image`:
the elementwise box-score product succeeded, the shape guard held, and
the result scores are either all surviving candidates' fused scores in
scan order (no truncation) or the top-k selection from them. -/
theorem interaction_scores_inv
    {image_shape : ℕ × ℕ} {pb ob : List Box} {ps os : List ℚ} {oc : List ℤ}
    {hoi : List (List ℚ)} {t : ℚ} {topk : ℤ} {res : Instances}
    (hres : interaction_inference_single_image image_shape pb ob ps os oc hoi t topk = some res) :
    ∃ bs, broadcastMul ps os = some bs ∧ hoi.length = bs.length ∧
      ((¬(0 < topk ∧ topk < ((filterCandidates (fusedScores hoi bs) t).length : ℤ)) ∧
        res.scores = (filterCandidates (fusedScores hoi bs) t).map (fun c => c.2.2)) ∨
       ((0 < topk ∧ topk < ((filterCandidates (fusedScores hoi bs) t).length : ℤ)) ∧
        selectIdx ((filterCandidates (fusedScores hoi bs) t).map (fun c => c.2.2))
          ((argsortDesc ((filterCandidates (fusedScores hoi bs) t).map (fun c => c.2.2))).take
            topk.toNat) = some res.scores)) := by
  unfold interaction_inference_single_image at hres
  cases hb : broadcastMul ps os with
  | none => rw [hb] at hres; simp at hres
  | some bs =>
    rw [hb] at hres
    simp only [Option.pure_def, Option.bind_eq_bind, Option.some_bind] at hres
    refine ⟨bs, rfl, ?_⟩
    by_cases hl : hoi.length = bs.length
    · rw [if_pos hl] at hres
      refine ⟨hl, ?_⟩
      simp only [Option.bind_eq_some] at hres
      obtain ⟨pbF, hpb, hres⟩ := hres
      obtain ⟨obF, hob, hres⟩ := hres
      obtain ⟨ocF, hoc, hres⟩ := hres
      by_cases hcond : 0 < topk ∧ topk < ((filterCandidates (fusedScores hoi bs) t).length : ℤ)
      · rw [if_pos hcond] at hres
        simp only [Option.bind_eq_some] at hres
        obtain ⟨pb2, hpb2, hres⟩ := hres
        obtain ⟨ob2, hob2, hres⟩ := hres
        obtain ⟨oc2, hoc2, hres⟩ := hres
        obtain ⟨ac2, hac2, hres⟩ := hres
        obtain ⟨sc2, hsc2, hres⟩ := hres
        injection hres with hres
        subst hres
        exact Or.inr ⟨hcond, by simpa using hsc2⟩
      · rw [if_neg hcond] at hres
        injection hres with hres
        subst hres
        exact Or.inl ⟨hcond, rfl⟩
    · rw [if_neg hl] at hres
      cases hres

/-! ## Claim theorems: single-image interaction inference -/

/-- C3: every candidate in the result of
`interaction_inference_single_image` has fused score strictly greater
than the score threshold; no candidate at or below it survives the
per-triple mask `scores > score_thresh`. -/
theorem C3_threshold (image_shape : ℕ × ℕ) (pb ob : List Box) (ps os : List ℚ)
    (oc : List ℤ) (hoi : List (List ℚ)) (t : ℚ) (topk : ℤ) (res : Instances)
    (hres : interaction_inference_single_image image_shape pb ob ps os oc hoi t topk = some res) :
    ∀ s ∈ res.scores, t < s := by
  obtain ⟨bs, _, _, hcase⟩ := interaction_scores_inv hres
  intro s hs
  rcases hcase with ⟨_, hsc⟩ | ⟨_, hsel⟩
  · rw [hsc] at hs
    simp only [List.mem_map] at hs
    obtain ⟨c, hc, rfl⟩ := hs
    exact lt_of_mem_filterCandidates hc
  · have hmem := mem_of_selectIdx hsel s hs
    simp only [List.mem_map] at hmem
    obtain ⟨c, hc, rfl⟩ := hmem
    exact lt_of_mem_filterCandidates hc

/-- Witness for C3 on a concrete run: one pair with fused score
`0.9 * 0.9 * 0.9 = 729/1000`, threshold `1/2`. -/
theorem C3_witness :
    interaction_inference_single_image (1, 1) [⟨0, 0, 1, 1⟩] [⟨0, 0, 1, 1⟩]
        [9/10] [9/10] [0] [[9/10]] (1/2) 5 =
      some ⟨(1, 1), [⟨0, 0, 1, 1⟩], [⟨0, 0, 1, 1⟩], [0], [0], [729/1000]⟩ ∧
    ∀ s ∈ (Instances.mk (1, 1) [⟨0, 0, 1, 1⟩] [⟨0, 0, 1, 1⟩] [0] [0] [729/1000]).scores,
      (1 : ℚ)/2 < s :=
  ⟨by with_unfolding_all rfl,
   C3_threshold (1, 1) [⟨0, 0, 1, 1⟩] [⟨0, 0, 1, 1⟩] [9/10] [9/10] [0] [[9/10]] (1/2) 5 _
     (by with_unfolding_all rfl)⟩

/-- C2 (amended): with `0 < topk_per_image`, the result length is
`min(topk, survivor count)`; when additionally `topk < survivor count`
(the code's truncation guard `topk_per_image > 0 and topk_per_image <
len(filter_inds)`), the kept scores are the `topk` highest fused scores
in descending order; with `topk_per_image ≤ 0` — including `0`, where
the original claim fails — the result is every surviving candidate,
untruncated and in scan (row-major mask) order. -/
theorem C2_amended (image_shape : ℕ × ℕ) (pb ob : List Box) (ps os : List ℚ)
    (oc : List ℤ) (hoi : List (List ℚ)) (t : ℚ) (topk : ℤ) (res : Instances)
    (hlen : ps.length = os.length)
    (hres : interaction_inference_single_image image_shape pb ob ps os oc hoi t topk = some res) :
    (topk ≤ 0 → res.scores = (survivors ps os hoi t).map (fun c => c.2.2)) ∧
    (0 < topk → res.scores.length = min topk.toNat (survivors ps os hoi t).length) ∧
    (0 < topk → topk < ((survivors ps os hoi t).length : ℤ) →
      List.Sorted (fun a b : ℚ => b ≤ a) res.scores ∧
      ∃ rest, (res.scores ++ rest).Perm ((survivors ps os hoi t).map (fun c => c.2.2)) ∧
        ∀ a ∈ res.scores, ∀ b ∈ rest, b ≤ a) := by
  obtain ⟨bs, hb, hl, hcase⟩ := interaction_scores_inv hres
  have hbs : bs = List.zipWith (· * ·) ps os := by
    unfold broadcastMul at hb
    rw [if_pos hlen] at hb
    injection hb with hb
    exact hb.symm
  subst hbs
  have hsurv : filterCandidates (fusedScores hoi (List.zipWith (· * ·) ps os)) t =
      survivors ps os hoi t := rfl
  rw [hsurv] at hcase
  rcases hcase with ⟨hnc, hsc⟩ | ⟨⟨h0, hlt⟩, hsel⟩
  · refine ⟨fun _ => hsc, fun hpos => ?_, fun hpos hlt2 => ?_⟩
    · rw [hsc, List.length_map]
      have hQle : ((survivors ps os hoi t).length : ℤ) ≤ topk := by
        by_contra hcon
        exact hnc ⟨hpos, by omega⟩
      omega
    · exact absurd ⟨hpos, hlt2⟩ hnc
  · rw [selectIdx_argsort_take] at hsel
    injection hsel with hsel
    have hscores : res.scores =
        ((List.insertionSort scoreGE
          (scorePairs ((survivors ps os hoi t).map (fun c => c.2.2)))).map (·.1)).take
          topk.toNat := hsel.symm
    have hQ : ((List.insertionSort scoreGE
        (scorePairs ((survivors ps os hoi t).map (fun c => c.2.2)))).map (·.1)).length =
        (survivors ps os hoi t).length := by
      rw [length_map_fst_insertionSort, List.length_map]
    refine ⟨fun hneg => absurd h0 (by omega), fun _ => ?_, fun _ _ => ?_⟩
    · rw [hscores, List.length_take, hQ]
    · constructor
      · rw [hscores]
        exact List.Pairwise.sublist (List.take_sublist _ _)
          (sorted_map_fst_insertionSort _)
      · refine ⟨((List.insertionSort scoreGE
          (scorePairs ((survivors ps os hoi t).map (fun c => c.2.2)))).map (·.1)).drop
            topk.toNat, ?_, ?_⟩
        · rw [hscores, List.take_append_drop]
          exact perm_map_fst_insertionSort _
        · intro a ha b hb2
          have hsorted := sorted_map_fst_insertionSort
            (scorePairs ((survivors ps os hoi t).map (fun c => c.2.2)))
          rw [← List.take_append_drop topk.toNat ((List.insertionSort scoreGE
            (scorePairs ((survivors ps os hoi t).map (fun c => c.2.2)))).map (·.1))]
            at hsorted
          have hcross := (List.pairwise_append.1 hsorted).2.2
          rw [hscores] at ha
          exact hcross a ha b hb2

/-- Witness for C2 at scenario B: `topk_per_image = 1` with three
surviving fused scores `[9/10, 7/10, 19/20]`; exactly the `19/20`
candidate (the third pair) is returned. -/
theorem C2_witness :
    ([1, 1, 1] : List ℚ).length = ([1, 1, 1] : List ℚ).length ∧
    interaction_inference_single_image (1, 1)
        [⟨0, 0, 1, 1⟩, ⟨0, 0, 2, 2⟩, ⟨0, 0, 3, 3⟩]
        [⟨0, 0, 1, 1⟩, ⟨0, 0, 2, 2⟩, ⟨0, 0, 3, 3⟩]
        [1, 1, 1] [1, 1, 1] [0, 0, 0] [[9/10], [7/10], [19/20]] (1/2) 1 =
      some ⟨(1, 1), [⟨0, 0, 3, 3⟩], [⟨0, 0, 3, 3⟩], [0], [0], [19/20]⟩ ∧
    (((1 : ℤ) ≤ 0 → [(19 : ℚ)/20] =
        (survivors [1, 1, 1] [1, 1, 1] [[9/10], [7/10], [19/20]] (1/2)).map
          (fun c => c.2.2)) ∧
     ((0 : ℤ) < 1 → ([(19 : ℚ)/20]).length =
        min (Int.toNat 1)
          (survivors [1, 1, 1] [1, 1, 1] [[9/10], [7/10], [19/20]] (1/2)).length) ∧
     ((0 : ℤ) < 1 →
      (1 : ℤ) < ((survivors [1, 1, 1] [1, 1, 1] [[9/10], [7/10], [19/20]] (1/2)).length : ℤ) →
        List.Sorted (fun a b : ℚ => b ≤ a) [(19 : ℚ)/20] ∧
        ∃ rest, ([(19 : ℚ)/20] ++ rest).Perm
            ((survivors [1, 1, 1] [1, 1, 1] [[9/10], [7/10], [19/20]] (1/2)).map
              (fun c => c.2.2)) ∧
          ∀ a ∈ [(19 : ℚ)/20], ∀ b ∈ rest, b ≤ a)) :=
  ⟨rfl, by with_unfolding_all rfl,
   C2_amended (1, 1) [⟨0, 0, 1, 1⟩, ⟨0, 0, 2, 2⟩, ⟨0, 0, 3, 3⟩]
     [⟨0, 0, 1, 1⟩, ⟨0, 0, 2, 2⟩, ⟨0, 0, 3, 3⟩] [1, 1, 1] [1, 1, 1] [0, 0, 0]
     [[9/10], [7/10], [19/20]] (1/2) 1
     ⟨(1, 1), [⟨0, 0, 3, 3⟩], [⟨0, 0, 3, 3⟩], [0], [0], [19/20]⟩ rfl
     (by with_unfolding_all rfl)⟩

/-- C2 counterexample: with `topk_per_image = 0` (which the claim's
"K' ≥ 0" case covers) and one surviving candidate, the code's guard
`topk_per_image > 0` skips truncation and returns 1 candidate, while the
claim demands length ≤ min(0, 1) = 0. -/
theorem C2_counterexample :
    interaction_inference_single_image (1, 1) [⟨0, 0, 1, 1⟩] [⟨0, 0, 1, 1⟩] [1] [1] [0]
        [[9/10]] (1/2) 0 =
      some ⟨(1, 1), [⟨0, 0, 1, 1⟩], [⟨0, 0, 1, 1⟩], [0], [0], [9/10]⟩ ∧
    (survivors [1] [1] [[9/10]] (1/2)).length = 1 ∧
    ¬((1 : ℕ) ≤ min (Int.toNat 0) 1) :=
  ⟨by with_unfolding_all rfl, by with_unfolding_all rfl, by decide⟩

/-- C5: with zero person boxes, zero object boxes, or an
all-at-or-below-threshold fused-score grid, the function returns the
empty detection result (`some`, never an error). -/
theorem C5_empty_inputs (image_shape : ℕ × ℕ) (pb ob : List Box) (ps os : List ℚ)
    (oc : List ℤ) (hoi : List (List ℚ)) (t : ℚ) (topk : ℤ)
    (h1 : ps.length = pb.length) (h2 : os.length = pb.length)
    (h3 : ob.length = pb.length) (h5 : hoi.length = pb.length)
    (hcase : pb = [] ∨ ob = [] ∨
      ∀ s ∈ (fusedScores hoi (List.zipWith (· * ·) ps os)).flatten, s ≤ t) :
    interaction_inference_single_image image_shape pb ob ps os oc hoi t topk =
      some ⟨image_shape, [], [], [], [], []⟩ := by
  have hcands : filterCandidates (fusedScores hoi (List.zipWith (· * ·) ps os)) t = [] := by
    rcases hcase with h | h | h
    · have hps : ps = [] := List.eq_nil_of_length_eq_zero (by rw [h1, h, List.length_nil])
      subst hps
      simp [fusedScores, filterCandidates]
    · have hos : os = [] := List.eq_nil_of_length_eq_zero (by
        rw [h2, ← h3, h, List.length_nil])
      subst hos
      simp [fusedScores, filterCandidates]
    · exact filterCandidates_eq_nil h
  have hb : broadcastMul ps os = some (List.zipWith (· * ·) ps os) := by
    unfold broadcastMul
    rw [if_pos (by rw [h1, h2])]
  unfold interaction_inference_single_image
  rw [hb]
  simp only [Option.pure_def, Option.bind_eq_bind, Option.some_bind]
  rw [if_pos (by rw [List.length_zipWith, h1, h2, h5]; simp)]
  rw [hcands]
  simp only [List.map_nil, selectIdx, List.mapM_nil, Option.pure_def, Option.some_bind]
  rw [if_neg (by rintro ⟨ha, hb2⟩; simp at hb2; omega)]

/-- Witness for C5: a nonempty single-pair input whose only fused score
`1/4` is at or below the threshold `1/2` yields the empty result. -/
theorem C5_witness :
    ([(1 : ℚ)].length = [Box.mk 0 0 1 1].length) ∧
    (∀ s ∈ (fusedScores [[1/4]] (List.zipWith (· * ·) [(1 : ℚ)] [(1 : ℚ)])).flatten,
      s ≤ (1 : ℚ)/2) ∧
    interaction_inference_single_image (1, 1) [⟨0, 0, 1, 1⟩] [⟨0, 0, 1, 1⟩] [1] [1] [0]
        [[1/4]] (1/2) 100 = some ⟨(1, 1), [], [], [], [], []⟩ :=
  ⟨rfl, by with_unfolding_all decide,
   C5_empty_inputs (1, 1) [⟨0, 0, 1, 1⟩] [⟨0, 0, 1, 1⟩] [1] [1] [0] [[1/4]] (1/2) 100
     rfl rfl rfl rfl (Or.inr (Or.inr (by with_unfolding_all decide)))⟩

/-- C1 (amended): the fusion at lines 47-48 is per human-object pair,
not an `N x M` outer product — in the caller's shape regime the fused
score of pair `r`, action `k` is
`hoi_scores[r][k] * (person_box_scores[r] * object_box_scores[r])`; and
scenario A restated in pair form (person scores `[9/10, 1/10]`, per-pair
object scores `[4/5, 4/5]`, per-pair action probabilities
`[[9/10, 1/20], [9/10, 1/20]]`, threshold `1/2`) keeps exactly the
(pair 0, action 0) triple with fused score `0.648 = 81/125`. -/
theorem C1_amended (ps os : List ℚ) (hoi : List (List ℚ)) (r k : ℕ)
    (hr1 : r < hoi.length) (hr2 : r < ps.length) (hr3 : r < os.length)
    (hk : k < (hoi.getD r []).length) :
    ((fusedScores hoi (List.zipWith (· * ·) ps os)).getD r []).getD k 0 =
      ((hoi.getD r []).getD k 0) * (ps.getD r 0 * os.getD r 0) ∧
    interaction_inference_single_image (1, 1) [⟨0, 0, 1, 1⟩, ⟨0, 0, 2, 2⟩]
        [⟨1, 1, 2, 2⟩, ⟨1, 1, 3, 3⟩] [9/10, 1/10] [4/5, 4/5] [0, 1]
        [[9/10, 1/20], [9/10, 1/20]] (1/2) 100 =
      some ⟨(1, 1), [⟨0, 0, 1, 1⟩], [⟨1, 1, 2, 2⟩], [0], [0], [81/125]⟩ := by
  constructor
  · rw [fusedScores,
      getD_zipWith_of_lt _ hoi (List.zipWith (· * ·) ps os) r [] 0 [] hr1
        (by rw [List.length_zipWith]; omega)]
    rw [getD_map_of_lt _ _ k 0 0 hk]
    rw [getD_zipWith_of_lt (· * ·) ps os r 0 0 0 hr2 hr3]
  · with_unfolding_all rfl

/-- Witness for C1 at pair 0, action 0 of the pair-form scenario A. -/
theorem C1_witness :
    (0 < ([[(9 : ℚ)/10, 1/20], [9/10, 1/20]] : List (List ℚ)).length) ∧
    (0 < ([(9 : ℚ)/10, 1/10] : List ℚ).length) ∧
    (0 < ([(4 : ℚ)/5, 4/5] : List ℚ).length) ∧
    (0 < (([[(9 : ℚ)/10, 1/20], [9/10, 1/20]] : List (List ℚ)).getD 0 []).length) ∧
    (((fusedScores [[(9 : ℚ)/10, 1/20], [9/10, 1/20]]
          (List.zipWith (· * ·) [9/10, 1/10] [4/5, 4/5])).getD 0 []).getD 0 0 =
        ((([[(9 : ℚ)/10, 1/20], [9/10, 1/20]] : List (List ℚ)).getD 0 []).getD 0 0) *
          (([(9 : ℚ)/10, 1/10].getD 0 0) * ([(4 : ℚ)/5, 4/5].getD 0 0)) ∧
     interaction_inference_single_image (1, 1) [⟨0, 0, 1, 1⟩, ⟨0, 0, 2, 2⟩]
        [⟨1, 1, 2, 2⟩, ⟨1, 1, 3, 3⟩] [9/10, 1/10] [4/5, 4/5] [0, 1]
        [[9/10, 1/20], [9/10, 1/20]] (1/2) 100 =
      some ⟨(1, 1), [⟨0, 0, 1, 1⟩], [⟨1, 1, 2, 2⟩], [0], [0], [81/125]⟩) :=
  ⟨by decide, by decide, by decide, by decide,
   C1_amended [9/10, 1/10] [4/5, 4/5] [[9/10, 1/20], [9/10, 1/20]] 0 0
     (by decide) (by decide) (by decide) (by decide)⟩

/-- C1 counterexample: at the docstring's 3-D shapes the code multiplies
entry `(i, j, k)` by `box_scores[j]`, not by
`person_scores[i] * object_scores[j]`: with person scores `[9/10, 1/10]`
and object scores `[4/5, 4/5]`, the fused score of triple `(1, 0, 0)`
computes to `81/125 = 0.648`, whereas the claim's outer-product formula
`hoi[1][0][0] * person_scores[1] * object_scores[0]` gives
`9/125 = 0.072`. -/
theorem C1_counterexample :
    (((fusedScores3d [[[9/10, 1/20], [9/10, 1/20]], [[9/10, 1/20], [9/10, 1/20]]]
        (List.zipWith (· * ·) [9/10, 1/10] [4/5, 4/5])).getD 1 []).getD 0 []).getD 0 0 =
      81/125 ∧
    ¬((((fusedScores3d [[[9/10, 1/20], [9/10, 1/20]], [[9/10, 1/20], [9/10, 1/20]]]
        (List.zipWith (· * ·) [9/10, 1/10] [4/5, 4/5])).getD 1 []).getD 0 []).getD 0 0 =
      ((([[[(9 : ℚ)/10, 1/20], [9/10, 1/20]], [[9/10, 1/20], [9/10, 1/20]]].getD 1
          []).getD 0 []).getD 0 0) *
        ([(9 : ℚ)/10, 1/10].getD 1 0) * ([(4 : ℚ)/5, 4/5].getD 0 0)) :=
  ⟨by with_unfolding_all rfl, by with_unfolding_all decide⟩
